import Mathlib

/-!
# aero-ros-pkg: hardware bridge (`AeroRobotHW`) and motion interface (`AeroMoveitInterface`)

A shallow embedding of `aero_ros_controller/src/aero_robot_hardware.h` and of the
part of `aero_std/include/aero_std/AeroMoveitInterface.hh` that `solveIK` touches.

Conventions of the embedding:

* `double` / `float` members hold the rational value of a binary floating-point number;
  arithmetic on them rounds to nearest, ties to even (`toDouble`, `toFloat`);
* `std::vector<T>` members are `List T`;
* a `std::mutex` is a `Bool` (`true` = held).  `lock()` on a held mutex does not
  return in a sequential run, which the embedding renders as `none`;
* every lock, unlock and native controller call is appended to an event trace
  carried next to the hardware state (`World`).
-/

namespace aero_robot_hardware

/-! ## Data model (members of `class AeroRobotHW`) -/

/-- Methods used to control a joint (`enum ControlMethod`). -/
inductive ControlMethod
  | EFFORT | POSITION | POSITION_PID | VELOCITY | VELOCITY_PID
  deriving DecidableEq, Repr

/-- Kind of a joint (`enum JointType`). -/
inductive JointType
  | NONE | PRISMATIC | ROTATIONAL | CONTINUOUS | FIXED
  deriving DecidableEq, Repr

/-- Values of the C++ type `uint16_t`. -/
abbrev U16 := Fin 65536

/-- The two actuator subsystems, one controller handle each. -/
inductive Subsystem
  | upper | lower
  deriving DecidableEq, Repr

/-- Native calls made on a controller handle.  The first four are the calls the header
makes inline; `set_position` and `get_position` are the write and read primitives of the
control cycle. -/
inductive NativeCall
  | get_version
  | Hand_Script (sendnum script : U16)
  | set_max_single_current (sendnum power : U16)
  | set_command (cmd : Nat) (sendnum : U16) (value : Nat)
  | set_position (commands : List (Nat × Int)) (timestamp : Nat)
  | get_position
  deriving DecidableEq, Repr

/-- Observable events of a run, in program order. -/
inductive Event
  | lock_upper | unlock_upper
  | lock_lower | unlock_lower
  | call (sub : Subsystem) (c : NativeCall)
  deriving DecidableEq, Repr

/-- What the embedding keeps of a controller handle: the answer it gives to
`get_version()`. -/
structure AeroController where
  version : String
  deriving DecidableEq, Repr

/-- The data members of `AeroRobotHW` (ROS interface registries, publishers and
subscribers carry no state the inline member functions use, and are left out). -/
structure AeroRobotHW where
  number_of_angles_ : Nat
  joint_list_ : List String
  joint_lower_limits_ : List ℚ
  joint_upper_limits_ : List ℚ
  joint_effort_limits_ : List ℚ
  joint_types_ : List JointType
  joint_control_methods_ : List ControlMethod
  joint_position_ : List ℚ
  joint_velocity_ : List ℚ
  joint_effort_ : List ℚ
  joint_position_command_ : List ℚ
  joint_velocity_command_ : List ℚ
  joint_effort_command_ : List ℚ
  prev_ref_positions_ : List ℚ
  controller_upper_ : AeroController
  controller_lower_ : AeroController
  initialized_flag_ : Bool
  upper_send_enable_ : Bool
  CONTROL_PERIOD_US_ : Int
  OVERLAP_SCALE_ : ℚ
  BASE_COMMAND_PERIOD_MS_ : Int
  mutex_lower_ : Bool
  mutex_upper_ : Bool
  is_moving_ : Bool
  deriving DecidableEq

/-- Hardware state together with the trace of events emitted so far. -/
structure World where
  hw : AeroRobotHW
  trace : List Event
  deriving DecidableEq

/-! ## Primitives: mutexes and native calls -/

/-- Appends one event to the trace. -/
def emit (e : Event) (w : World) : World :=
  { w with trace := w.trace ++ [e] }

/-- The call `mutex_upper_.lock()`. -/
def mutex_upper_lock (w : World) : Option World :=
  if w.hw.mutex_upper_ then none
  else some (emit Event.lock_upper { w with hw := { w.hw with mutex_upper_ := true } })

/-- The call `mutex_upper_.unlock()`. -/
def mutex_upper_unlock (w : World) : World :=
  emit Event.unlock_upper { w with hw := { w.hw with mutex_upper_ := false } }

/-- The call `mutex_lower_.lock()`. -/
def mutex_lower_lock (w : World) : Option World :=
  if w.hw.mutex_lower_ then none
  else some (emit Event.lock_lower { w with hw := { w.hw with mutex_lower_ := true } })

/-- The call `mutex_lower_.unlock()`. -/
def mutex_lower_unlock (w : World) : World :=
  emit Event.unlock_lower { w with hw := { w.hw with mutex_lower_ := false } }

/-- A native call on `controller_upper_`. -/
def upper_call (c : NativeCall) (w : World) : World :=
  emit (Event.call Subsystem.upper c) w

/-- A native call on `controller_lower_`. -/
def lower_call (c : NativeCall) (w : World) : World :=
  emit (Event.call Subsystem.lower c) w

/-! ## Floating-point arithmetic

The members of type `double` and `float` hold binary floating-point numbers; every
arithmetic operation on them rounds its exact result to the nearest such number, ties to
the even significand.  The numbers are kept as rationals and the rounding is explicit.
The exponent range is not bounded: the model agrees with IEEE 754 for every result whose
magnitude is zero or lies between `2^-1022` and `2^1024` (no underflow, no overflow). -/

/-- Rounds a rational to the nearest integer, ties to the even one. -/
def roundHalfEven (r : ℚ) : ℤ :=
  if r - ⌊r⌋ < 1 / 2 then ⌊r⌋
  else if 1 / 2 < r - ⌊r⌋ then ⌊r⌋ + 1
  else if ⌊r⌋ % 2 = 0 then ⌊r⌋ else ⌊r⌋ + 1

/-- Floor of the binary logarithm of a positive natural number, by repeated halving;
`fuel` bounds the number of halvings. -/
def log2Fuel : ℕ → ℕ → ℕ
  | 0, _ => 0
  | fuel + 1, n => if 2 ≤ n then log2Fuel fuel (n / 2) + 1 else 0

/-- The binade of a non-zero rational: the integer `e` with `2^e ≤ |q| < 2^(e+1)`. -/
def binade (q : ℚ) : ℤ :=
  let e0 : ℤ :=
    (log2Fuel q.num.natAbs q.num.natAbs : ℤ) - (log2Fuel q.den q.den : ℤ)
  if (2 : ℚ) ^ e0 ≤ |q| then e0 else e0 - 1

/-- Rounding to the nearest binary floating-point number with `prec` significand bits,
ties to even. -/
def roundTo (prec : ℕ) (q : ℚ) : ℚ :=
  if q = 0 then 0
  else (roundHalfEven (q / (2 : ℚ) ^ (binade q - ((prec : ℤ) - 1))) : ℚ) *
    (2 : ℚ) ^ (binade q - ((prec : ℤ) - 1))

/-- Rounding to `double` (binary64, 53 significand bits). -/
def toDouble (q : ℚ) : ℚ := roundTo 53 q

/-- Rounding to `float` (binary32, 24 significand bits). -/
def toFloat (q : ℚ) : ℚ := roundTo 24 q

/-! ## Inline member functions of `AeroRobotHW` -/

/-- The member `prepareSwitch`: returns `true`, touches nothing. -/
def prepareSwitch (w : World) : Bool × World :=
  (true, w)

/-- The member `doSwitch`: empty body. -/
def doSwitch (w : World) : World :=
  w

/-- The member `getVersion`. -/
def getVersion (w : World) : Option (String × World) :=
  (mutex_upper_lock w).bind fun w1 =>
    let version := w1.hw.controller_upper_.version
    let w2 := upper_call NativeCall.get_version w1
    some (version, mutex_upper_unlock w2)

/-- The member `handScript`. -/
def handScript (sendnum script : U16) (w : World) : Option World :=
  (mutex_upper_lock w).bind fun w1 =>
    some (mutex_upper_unlock (upper_call (NativeCall.Hand_Script sendnum script) w1))

/-- The member `setMaxSingleCurrent`. -/
def setMaxSingleCurrent (sendnum power : U16) (w : World) : Option World :=
  (mutex_upper_lock w).bind fun w1 =>
    some (mutex_upper_unlock
      (upper_call (NativeCall.set_max_single_current sendnum power) w1))

/-- The member `stopUpper`. -/
def stopUpper (w : World) : Option World :=
  (mutex_upper_lock w).bind fun w1 =>
    some (mutex_upper_unlock { w1 with hw := { w1.hw with upper_send_enable_ := false } })

/-- The member `startUpper`. -/
def startUpper (w : World) : Option World :=
  (mutex_upper_lock w).bind fun w1 =>
    some (mutex_upper_unlock { w1 with hw := { w1.hw with upper_send_enable_ := true } })

/-- The member `servo` (send servo on command).  `CMD_MOTOR_SRV` is the command code of
`aero::controller`, declared in `CommandList.hh`, which is not among the sources: it is
a parameter. -/
def servo (CMD_MOTOR_SRV : Nat) (sendnum : U16) (w : World) : Option World :=
  (mutex_upper_lock w).bind fun w1 =>
    some (mutex_upper_unlock
      (upper_call (NativeCall.set_command CMD_MOTOR_SRV sendnum 1) w1))

/-- The member `getPeriod`: the control period in seconds.  The `int` member is converted
to `double`, the `int` product `1000 * 1000` is converted to `double`, and the quotient of
the two doubles is rounded to `double`. -/
def getPeriod (w : World) : ℚ × World :=
  (toDouble (toDouble (w.hw.CONTROL_PERIOD_US_ : ℚ) / toDouble ((1000 * 1000 : ℤ) : ℚ)), w)

/-- The member `getOverLapScale`. -/
def getOverLapScale (w : World) : ℚ × World :=
  (w.hw.OVERLAP_SCALE_, w)

/-! ## The control cycle and initialisation

`init`, `read` and `write` are declared in the header and defined in
`aero_robot_hardware.cpp`, which is not among the sources. -/

/-- Modelled from the spec: the JointStateConverter of section 4.1 (`Angle2Stroke.hh` and
`Stroke2Angle.hh` are not among the sources).  Conversion is joint-specific, so both
directions take the joint index; the tables themselves are left abstract. -/
structure JointStateConverter where
  angleToStroke : Nat → ℚ → Int
  strokeToAngle : Nat → Int → ℚ

/-- Modelled from the spec: `saturate(jointIndex, angleRad)` of section 4.1 (the body of
the saturation interface `pj_sat_interface_` is not among the sources): clamps the angle
to the `[lower, upper]` limit of the joint.  A joint index without limits has no
result. -/
def saturate (s : AeroRobotHW) (j : Nat) (x : ℚ) : Option ℚ :=
  match s.joint_lower_limits_[j]?, s.joint_upper_limits_[j]? with
  | some lo, some hi => some (max lo (min x hi))
  | _, _ => none

/-- Modelled from the spec: the interpolation of the write phase (section 4.3) from the
previous reference `p` towards the command `c` by the overlap scale `s`, that is
`p + s * (c - p)` as the scenario of section 8 computes it (`0.2 + 0.2 × 0.8`), evaluated
in `double` arithmetic: the difference, the product and the sum are each rounded. -/
def blend (s p c : ℚ) : ℚ :=
  toDouble (p + toDouble (s * toDouble (c - p)))

/-- Modelled from the spec: the blended target of the write phase (section 4.3): the
saturated command interpolated from the previous reference by the overlap scale. -/
def blendedTarget (s : AeroRobotHW) (j : Nat) : Option ℚ :=
  match s.joint_position_command_[j]?, s.prev_ref_positions_[j]? with
  | some c, some p => (saturate s j c).map fun c1 => blend s.OVERLAP_SCALE_ p c1
  | _, _ => none

/-- Turns a list of optional values into the list of the values, when all are present. -/
def collect {α : Type} : List (Option α) → Option (List α)
  | [] => some []
  | none :: _ => none
  | some a :: rest => (collect rest).map fun l => a :: l

/-- Modelled from the spec: the blended targets of all `number_of_angles_` joints; an
index outside one of the per-joint vectors gives no result. -/
def blendedTargets (s : AeroRobotHW) : Option (List ℚ) :=
  collect ((List.range s.number_of_angles_).map (blendedTarget s))

/-- Whether joint `j` is of type `FIXED`. -/
def isFixed (s : AeroRobotHW) (j : Nat) : Bool :=
  decide (s.joint_types_[j]? = some JointType.FIXED)

/-- Modelled from the spec: the native commands of one subsystem for a write cycle: the
blended targets of the joints this subsystem drives, fixed joints excluded, converted to
stroke units.  Which controller drives a joint is wiring the sources do not give; it is
the parameter `drive`. -/
def commandsFor (cv : JointStateConverter) (drive : Nat → Subsystem) (s : AeroRobotHW)
    (sub : Subsystem) (targets : List ℚ) : List (Nat × Int) :=
  (List.range targets.length).filterMap fun j =>
    if drive j = sub ∧ isFixed s j = false then
      (targets[j]?).map fun x => (j, cv.angleToStroke j x)
    else none

/-- Modelled from the spec: `AeroRobotHW::write`, the write phase of sections 4.2 and 4.3
(its body is not among the sources).  The commands are saturated, blended and converted
outside the locks; then each subsystem's lock is held around its native write only.  The
upper native write happens only when `upper_send_enable_` is set (the commands of a
disabled subsystem are dropped); the class has no such flag for the lower controller.
The previous reference becomes the blended value just sent. -/
def write (cv : JointStateConverter) (drive : Nat → Subsystem) (time : Nat) (_period : Nat)
    (w : World) : Option World :=
  (blendedTargets w.hw).bind fun targets =>
    (mutex_upper_lock w).bind fun w1 =>
      let w2 :=
        if w1.hw.upper_send_enable_ then
          upper_call
            (NativeCall.set_position (commandsFor cv drive w1.hw Subsystem.upper targets) time) w1
        else w1
      let w3 := mutex_upper_unlock w2
      (mutex_lower_lock w3).bind fun w4 =>
        let w5 :=
          lower_call
            (NativeCall.set_position (commandsFor cv drive w4.hw Subsystem.lower targets) time) w4
        let w6 := mutex_lower_unlock w5
        some { w6 with hw := { w6.hw with prev_ref_positions_ := targets } }

/-- Modelled from the spec: merging the raw feedback of one subsystem into the position
vector (read phase, section 4.3): every non-fixed joint the subsystem drives takes the
converted raw value; when the subsystem gave no data, or no value for the joint, the
last known value stays. -/
def mergeFeedback (cv : JointStateConverter) (drive : Nat → Subsystem) (s : AeroRobotHW)
    (sub : Subsystem) (raw : Option (List Int)) (pos : List ℚ) : List ℚ :=
  match raw with
  | none => pos
  | some r =>
    pos.enum.map fun jx =>
      if drive jx.1 = sub ∧ isFixed s jx.1 = false then
        match r[jx.1]? with
        | some k => cv.strokeToAngle jx.1 k
        | none => jx.2
      else jx.2

/-- Modelled from the spec: `AeroRobotHW::read`, the read phase of section 4.3 (its body is
not among the sources).  For each subsystem: acquire its lock, pull the raw feedback
(`fbUpper`, `fbLower`: what the controller answers, `none` when it gives no data),
convert it and store it in the feedback positions, release the lock. -/
def read (cv : JointStateConverter) (drive : Nat → Subsystem)
    (fbUpper fbLower : Option (List Int)) (w : World) : Option World :=
  (mutex_upper_lock w).bind fun w1 =>
    let w2 := upper_call NativeCall.get_position w1
    let w3 : World :=
      { w2 with hw := { w2.hw with
          joint_position_ :=
            mergeFeedback cv drive w2.hw Subsystem.upper fbUpper w2.hw.joint_position_ } }
    let w4 := mutex_upper_unlock w3
    (mutex_lower_lock w4).bind fun w5 =>
      let w6 := lower_call NativeCall.get_position w5
      let w7 : World :=
        { w6 with hw := { w6.hw with
            joint_position_ :=
              mergeFeedback cv drive w6.hw Subsystem.lower fbLower w6.hw.joint_position_ } }
      some (mutex_lower_unlock w7)

/-- Modelled from the spec: the JointSpec of section 3, one per controlled joint. -/
structure JointSpec where
  name : String
  type : JointType
  control_method : ControlMethod
  lower : ℚ
  upper : ℚ
  effort_limit : ℚ

/-- Modelled from the spec: the configuration surface of section 6, loaded once. -/
structure Configuration where
  control_period_us : Int
  overlap_scale : ℚ
  base_command_period_ms : Int

/-- Modelled from the spec: `AeroRobotHW::init` (its body is not among the sources): the
per-joint members are filled from the JointSpec list, index by index, the joint state
vectors start at zero with one entry per joint, the configuration is stored (the overlap
scale in a `float` member), both locks are free and the upper subsystem is enabled. -/
def init (specs : List JointSpec) (cfg : Configuration) (upper lower : AeroController) :
    World where
  hw :=
    { number_of_angles_ := specs.length
      joint_list_ := specs.map JointSpec.name
      joint_lower_limits_ := specs.map JointSpec.lower
      joint_upper_limits_ := specs.map JointSpec.upper
      joint_effort_limits_ := specs.map JointSpec.effort_limit
      joint_types_ := specs.map JointSpec.type
      joint_control_methods_ := specs.map JointSpec.control_method
      joint_position_ := List.replicate specs.length 0
      joint_velocity_ := List.replicate specs.length 0
      joint_effort_ := List.replicate specs.length 0
      joint_position_command_ := List.replicate specs.length 0
      joint_velocity_command_ := List.replicate specs.length 0
      joint_effort_command_ := List.replicate specs.length 0
      prev_ref_positions_ := List.replicate specs.length 0
      controller_upper_ := upper
      controller_lower_ := lower
      initialized_flag_ := true
      upper_send_enable_ := true
      CONTROL_PERIOD_US_ := cfg.control_period_us
      OVERLAP_SCALE_ := toFloat cfg.overlap_scale
      BASE_COMMAND_PERIOD_MS_ := cfg.base_command_period_ms
      mutex_lower_ := false
      mutex_upper_ := false
      is_moving_ := false }
  trace := []

/-- A concrete converter used for evaluation: one stroke unit per milliradian. -/
def cv0 : JointStateConverter where
  angleToStroke := fun _ x => Int.floor (x * 1000)
  strokeToAngle := fun _ k => (k : ℚ) / 1000

/-- A concrete wiring used for evaluation: joint 0 on the upper controller, the others on
the lower one. -/
def drive0 : Nat → Subsystem := fun j => if j = 0 then Subsystem.upper else Subsystem.lower

/-- All per-joint sequences of the hardware state have `number_of_angles_` entries. -/
abbrev Aligned (s : AeroRobotHW) : Prop :=
  s.joint_list_.length = s.number_of_angles_ ∧
  s.joint_lower_limits_.length = s.number_of_angles_ ∧
  s.joint_upper_limits_.length = s.number_of_angles_ ∧
  s.joint_effort_limits_.length = s.number_of_angles_ ∧
  s.joint_types_.length = s.number_of_angles_ ∧
  s.joint_control_methods_.length = s.number_of_angles_ ∧
  s.joint_position_.length = s.number_of_angles_ ∧
  s.joint_velocity_.length = s.number_of_angles_ ∧
  s.joint_effort_.length = s.number_of_angles_ ∧
  s.joint_position_command_.length = s.number_of_angles_ ∧
  s.joint_velocity_command_.length = s.number_of_angles_ ∧
  s.joint_effort_command_.length = s.number_of_angles_ ∧
  s.prev_ref_positions_.length = s.number_of_angles_

/-- The enable flag the class holds for a subsystem: the member `upper_send_enable_` for
the upper one.  The only other `bool` members are `initialized_flag_` and `is_moving_`;
the class declares no enable flag for the lower one. -/
def send_enable (s : AeroRobotHW) : Subsystem → Option Bool
  | Subsystem.upper => some s.upper_send_enable_
  | Subsystem.lower => none

/-- The member of the class that sets the enable flag of a subsystem to a value:
`startUpper` and `stopUpper` for the upper one; the class declares none for the lower one
(`startWheelServo` and `stopWheelServo` are servo commands, there is no flag they could
set). -/
def gate : Subsystem → Bool → Option (World → Option World)
  | Subsystem.upper, true => some startUpper
  | Subsystem.upper, false => some stopUpper
  | Subsystem.lower, _ => none

/-- The events one write cycle adds. -/
def writeEvents (cv : JointStateConverter) (drive : Nat → Subsystem) (time : Nat)
    (s : AeroRobotHW) (targets : List ℚ) : List Event :=
  [Event.lock_upper] ++
    (if s.upper_send_enable_ then
      [Event.call Subsystem.upper
        (NativeCall.set_position (commandsFor cv drive s Subsystem.upper targets) time)]
     else []) ++
    [Event.unlock_upper, Event.lock_lower,
     Event.call Subsystem.lower
       (NativeCall.set_position (commandsFor cv drive s Subsystem.lower targets) time),
     Event.unlock_lower]

/-- The operations of the bridge, with their arguments. -/
inductive Op
  | read (fbUpper fbLower : Option (List Int))
  | write (time period : Nat)
  | stopUpper
  | startUpper
  | getVersion
  | handScript (sendnum script : U16)
  | setMaxSingleCurrent (sendnum power : U16)
  | servo (sendnum : U16)
  | prepareSwitch
  | doSwitch
  | getPeriod
  | getOverLapScale

/-- Runs one operation of the bridge, keeping the state and dropping the returned value. -/
def runOp (cv : JointStateConverter) (drive : Nat → Subsystem) (CMD_MOTOR_SRV : Nat) :
    Op → World → Option World
  | Op.read fbUpper fbLower, w => read cv drive fbUpper fbLower w
  | Op.write time period, w => write cv drive time period w
  | Op.stopUpper, w => stopUpper w
  | Op.startUpper, w => startUpper w
  | Op.getVersion, w => (getVersion w).map Prod.snd
  | Op.handScript sendnum script, w => handScript sendnum script w
  | Op.setMaxSingleCurrent sendnum power, w => setMaxSingleCurrent sendnum power w
  | Op.servo sendnum, w => servo CMD_MOTOR_SRV sendnum w
  | Op.prepareSwitch, w => some (prepareSwitch w).2
  | Op.doSwitch, w => some (doSwitch w)
  | Op.getPeriod, w => some (getPeriod w).2
  | Op.getOverLapScale, w => some (getOverLapScale w).2

/-- Runs a sequence of operations, one after the other. -/
def runOps (cv : JointStateConverter) (drive : Nat → Subsystem) (CMD_MOTOR_SRV : Nat) :
    List Op → World → Option World
  | [], w => some w
  | op :: ops, w => (runOp cv drive CMD_MOTOR_SRV op w).bind (runOps cv drive CMD_MOTOR_SRV ops)

/-- A concrete two-joint hardware state used for evaluation; its overlap scale is the `float`
nearest to 0.2. -/
def hw0 : AeroRobotHW where
  number_of_angles_ := 2
  joint_list_ := ["neck_y_joint", "wheel_fixed"]
  joint_lower_limits_ := [-1, 0]
  joint_upper_limits_ := [1, 0]
  joint_effort_limits_ := [10, 10]
  joint_types_ := [JointType.ROTATIONAL, JointType.FIXED]
  joint_control_methods_ := [ControlMethod.POSITION, ControlMethod.POSITION]
  joint_position_ := [0, 0]
  joint_velocity_ := [0, 0]
  joint_effort_ := [0, 0]
  joint_position_command_ := [1, 0]
  joint_velocity_command_ := [0, 0]
  joint_effort_command_ := [0, 0]
  prev_ref_positions_ := [0, 0]
  controller_upper_ := { version := "v1" }
  controller_lower_ := { version := "v1" }
  initialized_flag_ := true
  upper_send_enable_ := true
  CONTROL_PERIOD_US_ := 10000
  OVERLAP_SCALE_ := 13421773 / 67108864
  BASE_COMMAND_PERIOD_MS_ := 100
  mutex_lower_ := false
  mutex_upper_ := false
  is_moving_ := false

/-- The state `hw0` with an empty trace. -/
def w0 : World := { hw := hw0, trace := [] }

end aero_robot_hardware

/-! # Motion interface (`AeroMoveitInterface`) -/

namespace aero
namespace interface

/-- A target pose (`geometry_msgs::Pose`): position and orientation quaternion. -/
structure Pose where
  x : ℚ
  y : ℚ
  z : ℚ
  qx : ℚ
  qy : ℚ
  qz : ℚ
  qw : ℚ
  deriving DecidableEq

/-- A kinematic state (`robot_state::RobotState`): the values of the joint positions. -/
structure RobotState where
  positions : List ℚ
  deriving DecidableEq

/-- Modelled from the spec: the chain selector of a motion goal (section 3): a named
group, or an arm with a reach range.  The enums `aero::arm` and `aero::ikrange` are
declared in `IKSettings.hh`, which is not among the sources; their values are kept as
codes. -/
inductive ChainSelector
  | group (move_group : String)
  | armRange (arm : Nat) (range : Nat)
  deriving DecidableEq

/-- The data members of `AeroMoveitInterface` that hold state of their own (model
loaders, move groups, joint model groups and ROS handles are left out). -/
structure AeroMoveitInterface where
  kinematic_state : RobotState
  kinematic_state_ho : RobotState
  kinematic_state_op : RobotState
  planned_group_ : String
  height_only_ : Bool
  trajectory_ : List (List ℚ)
  trajectory_groups_ : List String
  lifter_thigh_link_ : ℚ
  lifter_foreleg_link_ : ℚ
  deriving DecidableEq

/-- Modelled from the spec: `AeroMoveitInterface::solveIK` of section 4.6 (the header only
declares its three overloads).  The call delegates to the external solver `ik`, run
against the held kinematic state for the selected chain; a solution is committed to the
kinematic state and reported as `true`, a failure is reported as `false` and commits
nothing. -/
def solveIK (ik : RobotState → ChainSelector → Pose → String → Option RobotState)
    (chain : ChainSelector) (pose : Pose) (eef_link : String) (m : AeroMoveitInterface) :
    Bool × AeroMoveitInterface :=
  match ik m.kinematic_state chain pose eef_link with
  | some solution => (true, { m with kinematic_state := solution })
  | none => (false, m)

/-- A concrete solver used for evaluation: reaches only poses with `x ≤ 1`, and then sets
every joint variable to zero. -/
def ik0 : RobotState → ChainSelector → Pose → String → Option RobotState :=
  fun st _ pose _ =>
    if pose.x ≤ 1 then some { positions := st.positions.map fun _ => 0 } else none

/-- A concrete interface state used for evaluation. -/
def m0 : AeroMoveitInterface where
  kinematic_state := { positions := [1 / 2, 1 / 3] }
  kinematic_state_ho := { positions := [0] }
  kinematic_state_op := { positions := [0] }
  planned_group_ := ""
  height_only_ := true
  trajectory_ := []
  trajectory_groups_ := []
  lifter_thigh_link_ := 1 / 4
  lifter_foreleg_link_ := 1 / 4

end interface
end aero

/-! # Theorems: hardware bridge -/

namespace aero_robot_hardware

/-! ### Rounding to the nearest integer -/

theorem roundHalfEven_cases (r : ℚ) :
    roundHalfEven r = ⌊r⌋ ∧ r - ⌊r⌋ ≤ 1 / 2 ∨ roundHalfEven r = ⌊r⌋ + 1 ∧ 1 / 2 ≤ r - ⌊r⌋ := by
  unfold roundHalfEven
  split_ifs with h1 h2 h3
  · exact Or.inl ⟨rfl, le_of_lt h1⟩
  · exact Or.inr ⟨rfl, le_of_lt h2⟩
  · exact Or.inl ⟨rfl, not_lt.mp h2⟩
  · exact Or.inr ⟨rfl, not_lt.mp h1⟩

theorem roundHalfEven_error (r : ℚ) : |(roundHalfEven r : ℚ) - r| ≤ 1 / 2 := by
  have h1 := Int.floor_le r
  have h2 := Int.lt_floor_add_one r
  rw [abs_le]
  rcases roundHalfEven_cases r with ⟨h, h3⟩ | ⟨h, h3⟩
  · rw [h]
    constructor <;> linarith
  · rw [h]
    push_cast
    constructor <;> linarith

theorem roundHalfEven_intCast (n : ℤ) : roundHalfEven (n : ℚ) = n := by
  simp [roundHalfEven]

theorem log2Fuel_spec (fuel n : ℕ) (hn : n ≠ 0) (hf : n ≤ fuel) :
    2 ^ log2Fuel fuel n ≤ n ∧ n < 2 ^ (log2Fuel fuel n + 1) := by
  induction fuel generalizing n with
  | zero => omega
  | succ fuel ih =>
    unfold log2Fuel
    split_ifs with h2
    · have h3 : n / 2 ≠ 0 := by omega
      have h4 : n / 2 ≤ fuel := by omega
      obtain ⟨i1, i2⟩ := ih (n / 2) h3 h4
      constructor
      · rw [pow_succ]
        omega
      · rw [pow_succ]
        omega
    · constructor
      · simp; omega
      · simp; omega

theorem abs_eq_natAbs_div_den (q : ℚ) : |q| = (q.num.natAbs : ℚ) / (q.den : ℚ) := by
  have h : (q.num : ℚ) / (q.den : ℚ) = q := Rat.num_div_den q
  have hd : (0 : ℚ) < (q.den : ℚ) := by exact_mod_cast q.den_pos
  conv_lhs => rw [← h]
  rw [abs_div, abs_of_pos hd, Nat.cast_natAbs, Int.cast_abs]

theorem binade_spec (q : ℚ) (hq : q ≠ 0) :
    (2 : ℚ) ^ binade q ≤ |q| ∧ |q| < (2 : ℚ) ^ (binade q + 1) := by
  have ha : q.num.natAbs ≠ 0 := by
    simpa [Int.natAbs_eq_zero] using hq
  have hb : q.den ≠ 0 := q.den_nz
  obtain ⟨a1, a2⟩ := log2Fuel_spec q.num.natAbs q.num.natAbs ha le_rfl
  obtain ⟨b1, b2⟩ := log2Fuel_spec q.den q.den hb le_rfl
  have hq' := abs_eq_natAbs_div_den q
  have hd : (0 : ℚ) < (q.den : ℚ) := by exact_mod_cast q.den_pos
  have a1' : (2 : ℚ) ^ (log2Fuel q.num.natAbs q.num.natAbs) ≤ (q.num.natAbs : ℚ) := by
    exact_mod_cast a1
  have a2' : (q.num.natAbs : ℚ) < (2 : ℚ) ^ (log2Fuel q.num.natAbs q.num.natAbs + 1) := by
    exact_mod_cast a2
  have b1' : (2 : ℚ) ^ (log2Fuel q.den q.den) ≤ (q.den : ℚ) := by exact_mod_cast b1
  have b2' : (q.den : ℚ) < (2 : ℚ) ^ (log2Fuel q.den q.den + 1) := by exact_mod_cast b2
  have h2 : (0 : ℚ) < 2 := by norm_num
  unfold binade
  simp only
  split_ifs with h
  · refine ⟨h, ?_⟩
    rw [hq', div_lt_iff₀ hd]
    have e : (2 : ℚ) ^ ((log2Fuel q.num.natAbs q.num.natAbs : ℤ) - (log2Fuel q.den q.den : ℤ) + 1)
        * (2 : ℚ) ^ (log2Fuel q.den q.den) = (2 : ℚ) ^ (log2Fuel q.num.natAbs q.num.natAbs + 1) := by
      rw [← zpow_natCast, ← zpow_natCast, ← zpow_add₀ (ne_of_gt h2)]
      congr 1
      push_cast
      ring
    calc (q.num.natAbs : ℚ) < (2 : ℚ) ^ (log2Fuel q.num.natAbs q.num.natAbs + 1) := a2'
      _ = _ := e.symm
      _ ≤ _ := by
        apply mul_le_mul_of_nonneg_left b1'
        positivity
  · push_neg at h
    refine ⟨?_, by simpa using h⟩
    rw [hq', le_div_iff₀ hd]
    have e : (2 : ℚ) ^ ((log2Fuel q.num.natAbs q.num.natAbs : ℤ) - (log2Fuel q.den q.den : ℤ) - 1)
        * (2 : ℚ) ^ (log2Fuel q.den q.den + 1) = (2 : ℚ) ^ (log2Fuel q.num.natAbs q.num.natAbs) := by
      rw [← zpow_natCast, ← zpow_natCast, ← zpow_add₀ (ne_of_gt h2)]
      congr 1
      push_cast
      ring
    calc _ ≤ (2 : ℚ) ^ ((log2Fuel q.num.natAbs q.num.natAbs : ℤ) - (log2Fuel q.den q.den : ℤ) - 1)
            * (2 : ℚ) ^ (log2Fuel q.den q.den + 1) := by
          apply mul_le_mul_of_nonneg_left (le_of_lt b2')
          positivity
      _ = _ := e
      _ ≤ _ := a1'

theorem two_zpow_pos (k : ℤ) : (0 : ℚ) < (2 : ℚ) ^ k := by positivity

theorem roundTo_error (prec : ℕ) (q : ℚ) :
    |roundTo prec q - q| ≤ |q| / (2 : ℚ) ^ (prec : ℤ) := by
  by_cases hq : q = 0
  · simp [roundTo, hq]
  · obtain ⟨b1, -⟩ := binade_spec q hq
    have hu := two_zpow_pos (binade q - ((prec : ℤ) - 1))
    have hr := roundHalfEven_error (q / (2 : ℚ) ^ (binade q - ((prec : ℤ) - 1)))
    have e1 : roundTo prec q - q =
        ((roundHalfEven (q / (2 : ℚ) ^ (binade q - ((prec : ℤ) - 1))) : ℚ) -
          q / (2 : ℚ) ^ (binade q - ((prec : ℤ) - 1))) *
          (2 : ℚ) ^ (binade q - ((prec : ℤ) - 1)) := by
      simp only [roundTo, hq, if_false]
      field_simp
    have e2 : (2 : ℚ) ^ (binade q - ((prec : ℤ) - 1)) =
        2 * ((2 : ℚ) ^ binade q / (2 : ℚ) ^ (prec : ℤ)) := by
      rw [← zpow_sub₀ (by norm_num : (2 : ℚ) ≠ 0)]
      rw [show binade q - ((prec : ℤ) - 1) = 1 + (binade q - (prec : ℤ)) by ring]
      rw [zpow_add₀ (by norm_num : (2 : ℚ) ≠ 0), zpow_one]
    rw [e1, abs_mul, abs_of_pos hu]
    have hp := two_zpow_pos (prec : ℤ)
    have h3 : (2 : ℚ) ^ binade q / (2 : ℚ) ^ (prec : ℤ) ≤ |q| / (2 : ℚ) ^ (prec : ℤ) :=
      div_le_div_of_nonneg_right b1 (le_of_lt hp)
    have h4 : (0 : ℚ) ≤ (2 : ℚ) ^ binade q / (2 : ℚ) ^ (prec : ℤ) := by positivity
    calc _ ≤ 1 / 2 * (2 : ℚ) ^ (binade q - ((prec : ℤ) - 1)) :=
          mul_le_mul_of_nonneg_right hr (le_of_lt hu)
      _ = (2 : ℚ) ^ binade q / (2 : ℚ) ^ (prec : ℤ) := by rw [e2]; ring
      _ ≤ _ := h3

theorem roundTo_repr (prec : ℕ) (m k : ℤ) (hm : |(m : ℚ)| < (2 : ℚ) ^ (prec : ℤ)) :
    roundTo prec ((m : ℚ) * (2 : ℚ) ^ k) = (m : ℚ) * (2 : ℚ) ^ k := by
  by_cases hq : (m : ℚ) * (2 : ℚ) ^ k = 0
  · simp [roundTo, hq]
  · obtain ⟨b1, -⟩ := binade_spec _ hq
    have two_ne : (2 : ℚ) ≠ 0 := by norm_num
    have one_lt : (1 : ℚ) < 2 := by norm_num
    have hk := two_zpow_pos k
    have h1 : (2 : ℚ) ^ binade ((m : ℚ) * (2 : ℚ) ^ k) < (2 : ℚ) ^ ((prec : ℤ) + k) := by
      rw [zpow_add₀ two_ne]
      calc _ ≤ |(m : ℚ) * (2 : ℚ) ^ k| := b1
        _ = |(m : ℚ)| * (2 : ℚ) ^ k := by rw [abs_mul, abs_of_pos hk]
        _ < _ := mul_lt_mul_of_pos_right hm hk
    have h2 : binade ((m : ℚ) * (2 : ℚ) ^ k) < (prec : ℤ) + k :=
      (zpow_lt_zpow_iff_right₀ one_lt).mp h1
    obtain ⟨j, hj⟩ : ∃ j : ℕ, (j : ℤ) = k - (binade ((m : ℚ) * (2 : ℚ) ^ k) - ((prec : ℤ) - 1)) :=
      ⟨(k - (binade ((m : ℚ) * (2 : ℚ) ^ k) - ((prec : ℤ) - 1))).toNat,
        Int.toNat_of_nonneg (by omega)⟩
    have e1 : (m : ℚ) * (2 : ℚ) ^ k /
        (2 : ℚ) ^ (binade ((m : ℚ) * (2 : ℚ) ^ k) - ((prec : ℤ) - 1)) =
        ((m * 2 ^ j : ℤ) : ℚ) := by
      rw [mul_div_assoc, ← zpow_sub₀ two_ne, ← hj]
      push_cast
      rw [zpow_natCast]
    simp only [roundTo, hq, if_false]
    rw [e1, roundHalfEven_intCast, ← e1]
    field_simp

theorem toDouble_error (q : ℚ) : |toDouble q - q| ≤ |q| / 2 ^ 53 := by
  have h := roundTo_error 53 q
  have e : (2 : ℚ) ^ ((53 : ℕ) : ℤ) = 2 ^ 53 := by norm_num
  rw [e] at h
  exact h

theorem toDouble_pos_iff (q : ℚ) : 0 < toDouble q ↔ 0 < q := by
  have h := toDouble_error q
  rw [abs_le] at h
  obtain ⟨h1, h2⟩ := h
  constructor
  · intro hp
    by_contra hn
    push_neg at hn
    rw [abs_of_nonpos hn] at h2
    have : toDouble q ≤ q - q / 2 ^ 53 := by linarith
    have h3 : q / 2 ^ 53 ≥ q := by
      rw [ge_iff_le, le_div_iff₀ (by positivity)]
      nlinarith
    linarith
  · intro hp
    rw [abs_of_pos hp] at h1
    have h3 : q / 2 ^ 53 < q := by
      rw [div_lt_iff₀ (by positivity)]
      nlinarith
    linarith

theorem toDouble_intCast (c : ℤ) (h1 : -2 ^ 31 ≤ c) (h2 : c < 2 ^ 31) :
    toDouble (c : ℚ) = (c : ℚ) := by
  have h := roundTo_repr 53 c 0 (by
    have a1 : (-2 ^ 31 : ℚ) ≤ (c : ℚ) := by exact_mod_cast h1
    have a2 : (c : ℚ) < 2 ^ 31 := by exact_mod_cast h2
    rw [abs_lt]
    norm_num
    constructor <;> linarith)
  simpa [toDouble] using h

theorem toDouble_million : toDouble (((1000 * 1000 : ℤ) : ℚ)) = 1000000 := by
  have h := toDouble_intCast (1000 * 1000) (by norm_num) (by norm_num)
  rw [h]
  norm_num

theorem period_strict (c d : ℤ) (hc1 : -2 ^ 31 ≤ c) (hd2 : d < 2 ^ 31) (hcd : c < d) :
    toDouble ((c : ℚ) / 1000000) < toDouble ((d : ℚ) / 1000000) := by
  have ec := toDouble_error ((c : ℚ) / 1000000)
  have ed := toDouble_error ((d : ℚ) / 1000000)
  have a1 : (-2 ^ 31 : ℚ) ≤ (c : ℚ) := by exact_mod_cast hc1
  have a2 : (d : ℚ) < 2 ^ 31 := by exact_mod_cast hd2
  have a3 : (c : ℚ) + 1 ≤ (d : ℚ) := by exact_mod_cast Int.add_one_le_iff.mpr hcd
  have bc : |(c : ℚ) / 1000000| ≤ 2 ^ 31 / 1000000 := by
    rw [abs_le]
    constructor
    · rw [le_div_iff₀ (by norm_num)]; norm_num at a1 ⊢; linarith
    · rw [div_le_div_iff₀ (by norm_num) (by norm_num)]; norm_num at a1 a2 ⊢; linarith
  have bd : |(d : ℚ) / 1000000| ≤ 2 ^ 31 / 1000000 := by
    rw [abs_le]
    constructor
    · rw [le_div_iff₀ (by norm_num)]; norm_num at a1 a3 ⊢; linarith
    · rw [div_le_div_iff₀ (by norm_num) (by norm_num)]; norm_num at a2 ⊢; linarith
  have gc : |(c : ℚ) / 1000000| / 2 ^ 53 ≤ 2 ^ 31 / 1000000 / 2 ^ 53 :=
    div_le_div_of_nonneg_right bc (by positivity)
  have gd : |(d : ℚ) / 1000000| / 2 ^ 53 ≤ 2 ^ 31 / 1000000 / 2 ^ 53 :=
    div_le_div_of_nonneg_right bd (by positivity)
  have gap : (c : ℚ) / 1000000 + 1 / 1000000 ≤ (d : ℚ) / 1000000 := by
    rw [← add_div]
    exact div_le_div_of_nonneg_right a3 (by norm_num)
  rw [abs_le] at ec ed
  have small : (2 : ℚ) ^ 31 / 1000000 / 2 ^ 53 < 1 / 1000000 / 4 := by norm_num
  linarith [ec.2, ed.1]

/-! ### Enable flag and side channel -/

/-- What `stopUpper` and `startUpper` do from a state whose upper lock is free. -/
theorem setUpper_eq (w : World) (h : w.hw.mutex_upper_ = false) :
    stopUpper w =
        some { hw := { w.hw with upper_send_enable_ := false },
               trace := w.trace ++ [Event.lock_upper, Event.unlock_upper] } ∧
      startUpper w =
        some { hw := { w.hw with upper_send_enable_ := true },
               trace := w.trace ++ [Event.lock_upper, Event.unlock_upper] } := by
  obtain ⟨s, t⟩ := w
  cases s
  simp only at h
  subst h
  constructor <;> simp [stopUpper, startUpper, mutex_upper_lock, mutex_upper_unlock, emit]

/-- C2: from every hardware state (upper lock free on entry), `stopUpper` returns with
`upper_send_enable_ = false` and `startUpper` with `upper_send_enable_ = true`, whatever the
flag was; every other field is as before, the upper lock is free again, the only events
are the lock and the unlock (no native controller call), and of two calls in a row the
last one wins (each is idempotent). -/
theorem stopUpper_startUpper_spec (w : World) (h : w.hw.mutex_upper_ = false) :
    (∃ w1, stopUpper w = some w1 ∧
        w1.hw = { w.hw with upper_send_enable_ := false } ∧
        w1.hw.upper_send_enable_ = false ∧ w1.hw.mutex_upper_ = false ∧
        w1.trace = w.trace ++ [Event.lock_upper, Event.unlock_upper]) ∧
    (∃ w2, startUpper w = some w2 ∧
        w2.hw = { w.hw with upper_send_enable_ := true } ∧
        w2.hw.upper_send_enable_ = true ∧ w2.hw.mutex_upper_ = false ∧
        w2.trace = w.trace ++ [Event.lock_upper, Event.unlock_upper]) ∧
    ((stopUpper w).bind stopUpper).map World.hw = (stopUpper w).map World.hw ∧
    ((startUpper w).bind startUpper).map World.hw = (startUpper w).map World.hw ∧
    ((startUpper w).bind stopUpper).map World.hw = (stopUpper w).map World.hw ∧
    ((stopUpper w).bind startUpper).map World.hw = (startUpper w).map World.hw := by
  have e0 := setUpper_eq w h
  have e1 := setUpper_eq
    { hw := { w.hw with upper_send_enable_ := false },
      trace := w.trace ++ [Event.lock_upper, Event.unlock_upper] } h
  have e2 := setUpper_eq
    { hw := { w.hw with upper_send_enable_ := true },
      trace := w.trace ++ [Event.lock_upper, Event.unlock_upper] } h
  refine ⟨⟨_, e0.1, rfl, rfl, h, rfl⟩, ⟨_, e0.2, rfl, rfl, h, rfl⟩, ?_, ?_, ?_, ?_⟩
  · rw [e0.1, Option.some_bind, e1.1]; rfl
  · rw [e0.2, Option.some_bind, e2.2]; rfl
  · rw [e0.2, e0.1, Option.some_bind, e2.1]; rfl
  · rw [e0.1, e0.2, Option.some_bind, e1.2]; rfl

/-- C2 at the state `w0` (upper enabled, lock free): `stopUpper` clears the flag. -/
theorem stopUpper_startUpper_spec_witness :
    w0.hw.mutex_upper_ = false ∧
      (stopUpper w0).map (fun w => w.hw.upper_send_enable_) = some false := by
  obtain ⟨⟨w1, h1, -, h2, -⟩, -⟩ := stopUpper_startUpper_spec w0 rfl
  exact ⟨rfl, by rw [h1]; simp [h2]⟩

/-- What the four side-channel members do from a state whose upper lock is free. -/
theorem side_channel_eq (CMD_MOTOR_SRV : Nat) (sendnum arg : U16) (w : World)
    (h : w.hw.mutex_upper_ = false) :
    getVersion w =
        some (w.hw.controller_upper_.version,
          { w with trace := w.trace ++
              [Event.lock_upper, Event.call Subsystem.upper NativeCall.get_version,
               Event.unlock_upper] }) ∧
      handScript sendnum arg w =
        some { w with trace := w.trace ++
          [Event.lock_upper, Event.call Subsystem.upper (NativeCall.Hand_Script sendnum arg),
           Event.unlock_upper] } ∧
      setMaxSingleCurrent sendnum arg w =
        some { w with trace := w.trace ++
          [Event.lock_upper,
           Event.call Subsystem.upper (NativeCall.set_max_single_current sendnum arg),
           Event.unlock_upper] } ∧
      servo CMD_MOTOR_SRV sendnum w =
        some { w with trace := w.trace ++
          [Event.lock_upper,
           Event.call Subsystem.upper (NativeCall.set_command CMD_MOTOR_SRV sendnum 1),
           Event.unlock_upper] } := by
  obtain ⟨s, t⟩ := w
  cases s
  simp only at h
  subst h
  refine ⟨?_, ?_, ?_, ?_⟩ <;>
    simp [getVersion, handScript, setMaxSingleCurrent, servo, mutex_upper_lock,
      mutex_upper_unlock, upper_call, emit]

/-- C7: started with the upper lock free, each of `getVersion`, `handScript`,
`setMaxSingleCurrent` and `servo` returns, adds exactly the three events
lock upper, one native call on the upper controller, unlock upper, passes the caller's
arguments unchanged (`servo` sends `CMD_MOTOR_SRV` with the send number and value 1), and
leaves the hardware state, hence both locks, the enable flag and all joint vectors, as it
was; no event on the lower lock or lower controller occurs. -/
theorem side_channel_spec (CMD_MOTOR_SRV : Nat) (sendnum arg : U16) (w : World)
    (h : w.hw.mutex_upper_ = false) :
    getVersion w =
        some (w.hw.controller_upper_.version,
          { w with trace := w.trace ++
              [Event.lock_upper, Event.call Subsystem.upper NativeCall.get_version,
               Event.unlock_upper] }) ∧
      handScript sendnum arg w =
        some { w with trace := w.trace ++
          [Event.lock_upper, Event.call Subsystem.upper (NativeCall.Hand_Script sendnum arg),
           Event.unlock_upper] } ∧
      setMaxSingleCurrent sendnum arg w =
        some { w with trace := w.trace ++
          [Event.lock_upper,
           Event.call Subsystem.upper (NativeCall.set_max_single_current sendnum arg),
           Event.unlock_upper] } ∧
      servo CMD_MOTOR_SRV sendnum w =
        some { w with trace := w.trace ++
          [Event.lock_upper,
           Event.call Subsystem.upper (NativeCall.set_command CMD_MOTOR_SRV sendnum 1),
           Event.unlock_upper] } :=
  side_channel_eq CMD_MOTOR_SRV sendnum arg w h

/-- C7 at the state `w0`: `servo 33 5` leaves the hardware state alone and emits the three
events. -/
theorem side_channel_spec_witness :
    w0.hw.mutex_upper_ = false ∧
      servo 33 5 w0 =
        some { hw := hw0,
               trace := [Event.lock_upper,
                 Event.call Subsystem.upper (NativeCall.set_command 33 5 1),
                 Event.unlock_upper] } :=
  ⟨rfl, (side_channel_spec 33 5 0 w0 rfl).2.2.2⟩

/-- What `getPeriod` returns for a period in the range of a 32-bit `int`: the double
nearest to the exact quotient. -/
theorem getPeriod_eq (w : World) (h1 : -2 ^ 31 ≤ w.hw.CONTROL_PERIOD_US_)
    (h2 : w.hw.CONTROL_PERIOD_US_ < 2 ^ 31) :
    getPeriod w = (toDouble ((w.hw.CONTROL_PERIOD_US_ : ℚ) / 1000000), w) := by
  rw [getPeriod, toDouble_intCast _ h1 h2, toDouble_million]

/-- C10, as stated, fails: with `CONTROL_PERIOD_US_ = 10000` (state `w0`) `getPeriod`
returns the double `5764607523034235 / 2^59`, which is not `10000 / 1000000 = 1/100`. -/
theorem getPeriod_not_exact :
    w0.hw.CONTROL_PERIOD_US_ = 10000 ∧
      (getPeriod w0).1 = 5764607523034235 / 576460752303423488 ∧
      (getPeriod w0).1 ≠ (w0.hw.CONTROL_PERIOD_US_ : ℚ) / 1000000 ∧
      (getPeriod w0).1 ≠ 1 / 100 := by
  have h : (getPeriod w0).1 = 5764607523034235 / 576460752303423488 := by decide!
  refine ⟨rfl, h, ?_, ?_⟩
  · rw [h]
    have : (w0.hw.CONTROL_PERIOD_US_ : ℚ) = 10000 := by
      have e : w0.hw.CONTROL_PERIOD_US_ = 10000 := rfl
      rw [e]
      norm_num
    rw [this]
    norm_num
  · rw [h]
    norm_num

/-- C10, amended: for every configured control period in the range of a 32-bit `int`,
`getPeriod` returns the double nearest to `CONTROL_PERIOD_US_ / 1000000` (ties to even),
which is within `|CONTROL_PERIOD_US_ / 1000000| / 2^53` of that quotient, and leaves the
state unchanged; the result is positive exactly when the configured period is, it is
strictly monotone in the configured period, and 10000 microseconds give
`5764607523034235 / 2^59`. -/
theorem getPeriod_spec (w v : World) (hw1 : -2 ^ 31 ≤ w.hw.CONTROL_PERIOD_US_)
    (hw2 : w.hw.CONTROL_PERIOD_US_ < 2 ^ 31) (hv1 : -2 ^ 31 ≤ v.hw.CONTROL_PERIOD_US_)
    (hv2 : v.hw.CONTROL_PERIOD_US_ < 2 ^ 31) :
    (getPeriod w).1 = toDouble ((w.hw.CONTROL_PERIOD_US_ : ℚ) / 1000000) ∧
      |(getPeriod w).1 - (w.hw.CONTROL_PERIOD_US_ : ℚ) / 1000000| ≤
        |(w.hw.CONTROL_PERIOD_US_ : ℚ) / 1000000| / 2 ^ 53 ∧
      (getPeriod w).2 = w ∧
      (0 < (getPeriod w).1 ↔ 0 < w.hw.CONTROL_PERIOD_US_) ∧
      ((getPeriod w).1 < (getPeriod v).1 ↔
        w.hw.CONTROL_PERIOD_US_ < v.hw.CONTROL_PERIOD_US_) ∧
      (w.hw.CONTROL_PERIOD_US_ = 10000 →
        (getPeriod w).1 = 5764607523034235 / 576460752303423488) := by
  have ew := getPeriod_eq w hw1 hw2
  have ev := getPeriod_eq v hv1 hv2
  have e1 : (getPeriod w).1 = toDouble ((w.hw.CONTROL_PERIOD_US_ : ℚ) / 1000000) := by rw [ew]
  have e2 : (getPeriod v).1 = toDouble ((v.hw.CONTROL_PERIOD_US_ : ℚ) / 1000000) := by rw [ev]
  refine ⟨e1, ?_, rfl, ?_, ?_, ?_⟩
  · rw [e1]
    exact toDouble_error _
  · rw [e1, toDouble_pos_iff, div_pos_iff_of_pos_right (by norm_num)]
    exact Int.cast_pos
  · rw [e1, e2]
    constructor
    · intro hlt
      by_contra hn
      rcases eq_or_lt_of_le (not_lt.mp hn) with heq | hgt
      · rw [heq] at hlt
        exact lt_irrefl _ hlt
      · exact lt_asymm hlt (period_strict _ _ hv1 hw2 hgt)
    · exact period_strict _ _ hw1 hv2
  · intro h10
    rw [e1, h10]
    have : toDouble (((10000 : ℤ) : ℚ) / 1000000) = 5764607523034235 / 576460752303423488 := by
      decide!
    exact this

/-- C10 amended, at the state `w0`, whose configured period is 10000 microseconds. -/
theorem getPeriod_spec_witness :
    w0.hw.CONTROL_PERIOD_US_ = 10000 ∧
      (getPeriod w0).1 = 5764607523034235 / 576460752303423488 :=
  ⟨rfl, (getPeriod_spec w0 w0 (by decide) (by decide) (by decide) (by decide)).2.2.2.2.2 rfl⟩

/-- C4: for a joint index whose limits satisfy `lo ≤ hi` and every input angle `x`,
`saturate` has a result (an out-of-range angle is not a failure), the result lies in
`[lo, hi]`, it is `x` itself when `x` is already in `[lo, hi]`, and saturating the result
again gives the same result. -/
theorem saturate_spec (s : AeroRobotHW) (j : Nat) (lo hi x : ℚ)
    (hlo : s.joint_lower_limits_[j]? = some lo) (hhi : s.joint_upper_limits_[j]? = some hi)
    (hle : lo ≤ hi) :
    ∃ y, saturate s j x = some y ∧ lo ≤ y ∧ y ≤ hi ∧
      (lo ≤ x → x ≤ hi → y = x) ∧ saturate s j y = some y := by
  refine ⟨max lo (min x hi), by simp [saturate, hlo, hhi], le_max_left _ _,
    max_le hle (min_le_right _ _), ?_, ?_⟩
  · intro h1 h2
    rw [min_eq_left h2, max_eq_right h1]
  · have h3 : max lo (min x hi) ≤ hi := max_le hle (min_le_right _ _)
    simp only [saturate, hlo, hhi]
    rw [min_eq_left h3, max_eq_right (le_max_left _ _)]

/-- C4 at joint 0 of `hw0` (limits -1 and 1): the angle 5 saturates into the limits. -/
theorem saturate_spec_witness :
    hw0.joint_lower_limits_[0]? = some (-1 : ℚ) ∧
      hw0.joint_upper_limits_[0]? = some (1 : ℚ) ∧
      ∃ y : ℚ, saturate hw0 0 5 = some y ∧ -1 ≤ y ∧ y ≤ 1 := by
  have hlo : hw0.joint_lower_limits_[0]? = some (-1 : ℚ) := by simp [hw0]
  have hhi : hw0.joint_upper_limits_[0]? = some (1 : ℚ) := by simp [hw0]
  obtain ⟨y, h1, h2, h3, -, -⟩ := saturate_spec hw0 0 (-1) 1 5 hlo hhi (by norm_num)
  exact ⟨hlo, hhi, y, h1, h2, h3⟩

/-! ### The write cycle -/

/-- When every element has a value, `collect` returns the list of the values. -/
theorem collect_map {ι α : Type} (l : List ι) (f : ι → Option α) (g : ι → α)
    (h : ∀ x ∈ l, f x = some (g x)) : collect (l.map f) = some (l.map g) := by
  induction l with
  | nil => rfl
  | cons a l ih =>
    have ha : f a = some (g a) := h a (List.mem_cons_self a l)
    have hl : collect (l.map f) = some (l.map g) :=
      ih fun x hx => h x (List.mem_cons_of_mem a hx)
    simp [collect, ha, hl]

/-- The blended target of a joint whose four per-joint entries exist. -/
theorem blendedTarget_eq (s : AeroRobotHW) (j : Nat) (p c lo hi : ℚ)
    (hp : s.prev_ref_positions_[j]? = some p) (hc : s.joint_position_command_[j]? = some c)
    (hlo : s.joint_lower_limits_[j]? = some lo) (hhi : s.joint_upper_limits_[j]? = some hi) :
    blendedTarget s j = some (blend s.OVERLAP_SCALE_ p (max lo (min c hi))) := by
  simp [blendedTarget, saturate, hp, hc, hlo, hhi]

/-- In an aligned state every joint below `number_of_angles_` has a blended target. -/
theorem blendedTarget_isSome (s : AeroRobotHW) (ha : Aligned s) (j : Nat)
    (hj : j < s.number_of_angles_) : ∃ b, blendedTarget s j = some b := by
  obtain ⟨-, h2, h3, -, -, -, -, -, -, h10, -, -, h13⟩ := ha
  have e1 : s.prev_ref_positions_[j]? = some (s.prev_ref_positions_[j]) :=
    List.getElem?_eq_getElem (by omega)
  have e2 : s.joint_position_command_[j]? = some (s.joint_position_command_[j]) :=
    List.getElem?_eq_getElem (by omega)
  have e3 : s.joint_lower_limits_[j]? = some (s.joint_lower_limits_[j]) :=
    List.getElem?_eq_getElem (by omega)
  have e4 : s.joint_upper_limits_[j]? = some (s.joint_upper_limits_[j]) :=
    List.getElem?_eq_getElem (by omega)
  exact ⟨_, blendedTarget_eq s j _ _ _ _ e1 e2 e3 e4⟩

/-- In an aligned state the blended targets exist, one per joint, index by index. -/
theorem blendedTargets_of_aligned (s : AeroRobotHW) (ha : Aligned s) :
    ∃ targets, blendedTargets s = some targets ∧ targets.length = s.number_of_angles_ ∧
      ∀ j, j < s.number_of_angles_ → targets[j]? = blendedTarget s j := by
  refine ⟨(List.range s.number_of_angles_).map fun j => (blendedTarget s j).getD 0, ?_, ?_, ?_⟩
  · apply collect_map
    intro j hj
    obtain ⟨b, hb⟩ := blendedTarget_isSome s ha j (List.mem_range.mp hj)
    simp [hb]
  · simp
  · intro j hj
    obtain ⟨b, hb⟩ := blendedTarget_isSome s ha j hj
    simp [hj, hb]

/-- What a write cycle does from a state whose locks are free and whose blended targets
exist. -/
theorem write_eq (cv : JointStateConverter) (drive : Nat → Subsystem) (time period : Nat)
    (w : World) (targets : List ℚ) (hu : w.hw.mutex_upper_ = false)
    (hl : w.hw.mutex_lower_ = false) (ht : blendedTargets w.hw = some targets) :
    write cv drive time period w =
      some { hw := { w.hw with prev_ref_positions_ := targets },
             trace := w.trace ++ writeEvents cv drive time w.hw targets } := by
  obtain ⟨s, t⟩ := w
  cases he : s.upper_send_enable_ <;>
  · cases s
    simp only at hu hl ht he
    subst hu hl he
    simp [write, ht, mutex_upper_lock, mutex_upper_unlock, mutex_lower_lock,
      mutex_lower_unlock, upper_call, lower_call, emit, writeEvents, commandsFor, isFixed]

/-- Changing the enable flag does not change the blended targets. -/
theorem blendedTargets_enable (s : AeroRobotHW) (b : Bool) :
    blendedTargets { s with upper_send_enable_ := b } = blendedTargets s := by
  have h : blendedTarget { s with upper_send_enable_ := b } = blendedTarget s := by
    funext j
    simp [blendedTarget, saturate]
  simp [blendedTargets, h]

/-- C1: in every write cycle (state aligned, both locks free), whatever the command
vector: if `upper_send_enable_` is false, `write` returns (no error), the cycle's events
are the two lock/unlock pairs and the lower native write only, so no native call reaches
the upper controller; a `stopUpper` made before a cycle is observed by that very cycle
(no upper native call), and so is a `startUpper` (the upper native write is issued). -/
theorem write_disabled_spec (cv : JointStateConverter) (drive : Nat → Subsystem)
    (time period : Nat) (w : World) (ha : Aligned w.hw)
    (hu : w.hw.mutex_upper_ = false) (hl : w.hw.mutex_lower_ = false) :
    (w.hw.upper_send_enable_ = false →
      ∃ w1 targets, write cv drive time period w = some w1 ∧
        w1.trace = w.trace ++
          [Event.lock_upper, Event.unlock_upper, Event.lock_lower,
           Event.call Subsystem.lower
             (NativeCall.set_position (commandsFor cv drive w.hw Subsystem.lower targets) time),
           Event.unlock_lower] ∧
        ∀ c, Event.call Subsystem.upper c ∉ w1.trace.drop w.trace.length) ∧
    (∃ w1 w2, stopUpper w = some w1 ∧ write cv drive time period w1 = some w2 ∧
        ∀ c, Event.call Subsystem.upper c ∉ w2.trace.drop w.trace.length) ∧
    (∃ w1 w2 cmds, startUpper w = some w1 ∧ write cv drive time period w1 = some w2 ∧
        Event.call Subsystem.upper (NativeCall.set_position cmds time) ∈
          w2.trace.drop w1.trace.length) := by
  obtain ⟨targets, ht, -, -⟩ := blendedTargets_of_aligned w.hw ha
  have hset := setUpper_eq w hu
  refine ⟨?_, ?_, ?_⟩
  · intro he
    refine ⟨_, targets, write_eq cv drive time period w targets hu hl ht, ?_, ?_⟩
    · simp [writeEvents, he]
    · intro c
      simp [writeEvents, he]
  · refine ⟨_, _, hset.1, write_eq cv drive time period _ targets hu hl ?_, ?_⟩
    · rw [← ht]
      exact blendedTargets_enable w.hw false
    · intro c
      simp [writeEvents]
  · refine ⟨_, _,
      commandsFor cv drive { w.hw with upper_send_enable_ := true } Subsystem.upper targets,
      hset.2, write_eq cv drive time period _ targets hu hl ?_, ?_⟩
    · rw [← ht]
      exact blendedTargets_enable w.hw true
    · simp [writeEvents]

/-- C1 at the state `w0`: after `stopUpper` the next write cycle returns and its events
hold no call on the upper controller. -/
theorem write_disabled_spec_witness :
    Aligned w0.hw ∧ w0.hw.mutex_upper_ = false ∧ w0.hw.mutex_lower_ = false ∧
      ∃ w1 w2, stopUpper w0 = some w1 ∧ write cv0 drive0 7 0 w1 = some w2 ∧
        ∀ c, Event.call Subsystem.upper c ∉ w2.trace.drop w0.trace.length :=
  have ha : Aligned w0.hw := by decide
  ⟨ha, rfl, rfl, (write_disabled_spec cv0 drive0 7 0 w0 ha rfl rfl).2.1⟩

/-! ### Blending across cycles -/

/-- One write cycle from an aligned state with free locks: the blended targets exist and
become the previous references; nothing else in the hardware state changes. -/
theorem write_step (cv : JointStateConverter) (drive : Nat → Subsystem) (time period : Nat)
    (w : World) (ha : Aligned w.hw) (hu : w.hw.mutex_upper_ = false)
    (hl : w.hw.mutex_lower_ = false) :
    ∃ targets, targets.length = w.hw.number_of_angles_ ∧
      (∀ j, j < w.hw.number_of_angles_ → targets[j]? = blendedTarget w.hw j) ∧
      write cv drive time period w =
        some { hw := { w.hw with prev_ref_positions_ := targets },
               trace := w.trace ++ writeEvents cv drive time w.hw targets } := by
  obtain ⟨targets, ht, hlen, hget⟩ := blendedTargets_of_aligned w.hw ha
  exact ⟨targets, hlen, hget, write_eq cv drive time period w targets hu hl ht⟩

/-- Replacing the previous references by a vector of the right length keeps the state
aligned. -/
theorem aligned_prev (s : AeroRobotHW) (targets : List ℚ) (ha : Aligned s)
    (hlen : targets.length = s.number_of_angles_) :
    Aligned { s with prev_ref_positions_ := targets } := by
  obtain ⟨h1, h2, h3, h4, h5, h6, h7, h8, h9, h10, h11, h12, -⟩ := ha
  exact ⟨h1, h2, h3, h4, h5, h6, h7, h8, h9, h10, h11, h12, hlen⟩

/-- Merging feedback keeps the number of positions. -/
theorem length_mergeFeedback (cv : JointStateConverter) (drive : Nat → Subsystem)
    (s : AeroRobotHW) (sub : Subsystem) (raw : Option (List Int)) (pos : List ℚ) :
    (mergeFeedback cv drive s sub raw pos).length = pos.length := by
  cases raw <;> simp [mergeFeedback]

/-- What a read cycle does from a state whose locks are free: only the feedback positions
change, and there are as many as before. -/
theorem read_eq (cv : JointStateConverter) (drive : Nat → Subsystem)
    (fbUpper fbLower : Option (List Int)) (w : World) (hu : w.hw.mutex_upper_ = false)
    (hl : w.hw.mutex_lower_ = false) :
    ∃ pos, pos.length = w.hw.joint_position_.length ∧
      read cv drive fbUpper fbLower w =
        some { hw := { w.hw with joint_position_ := pos },
               trace := w.trace ++
                 [Event.lock_upper, Event.call Subsystem.upper NativeCall.get_position,
                  Event.unlock_upper, Event.lock_lower,
                  Event.call Subsystem.lower NativeCall.get_position, Event.unlock_lower] } := by
  obtain ⟨s, t⟩ := w
  cases s
  simp only at hu hl
  subst hu hl
  refine ⟨_, ?_, by
    simp only [read, mutex_upper_lock, mutex_upper_unlock, mutex_lower_lock,
      mutex_lower_unlock, upper_call, lower_call, emit]
    simp
    rfl⟩
  simp [length_mergeFeedback]

/-- Replacing the feedback positions by a vector of the same length keeps the state
aligned. -/
theorem aligned_position (s : AeroRobotHW) (pos : List ℚ) (ha : Aligned s)
    (hlen : pos.length = s.joint_position_.length) :
    Aligned { s with joint_position_ := pos } := by
  obtain ⟨h1, h2, h3, h4, h5, h6, h7, h8, h9, h10, h11, h12, h13⟩ := ha
  exact ⟨h1, h2, h3, h4, h5, h6, hlen.trans h7, h8, h9, h10, h11, h12, h13⟩

/-- Every operation of the bridge, started in an aligned state with both locks free,
returns in an aligned state with both locks free and the same `number_of_angles_`. -/
theorem runOp_preserves (cv : JointStateConverter) (drive : Nat → Subsystem)
    (CMD_MOTOR_SRV : Nat) (op : Op) (w : World) (ha : Aligned w.hw)
    (hu : w.hw.mutex_upper_ = false) (hl : w.hw.mutex_lower_ = false) :
    ∃ w1, runOp cv drive CMD_MOTOR_SRV op w = some w1 ∧ Aligned w1.hw ∧
      w1.hw.mutex_upper_ = false ∧ w1.hw.mutex_lower_ = false ∧
      w1.hw.number_of_angles_ = w.hw.number_of_angles_ := by
  cases op with
  | read fbUpper fbLower =>
    obtain ⟨pos, hlen, hr⟩ := read_eq cv drive fbUpper fbLower w hu hl
    exact ⟨_, hr, aligned_position w.hw pos ha hlen, hu, hl, rfl⟩
  | write time period =>
    obtain ⟨T, hlen, -, hw⟩ := write_step cv drive time period w ha hu hl
    exact ⟨_, hw, aligned_prev w.hw T ha hlen, hu, hl, rfl⟩
  | stopUpper => exact ⟨_, (setUpper_eq w hu).1, ha, hu, hl, rfl⟩
  | startUpper => exact ⟨_, (setUpper_eq w hu).2, ha, hu, hl, rfl⟩
  | getVersion =>
    refine ⟨{ w with trace := w.trace ++
        [Event.lock_upper, Event.call Subsystem.upper NativeCall.get_version,
         Event.unlock_upper] }, ?_, ha, hu, hl, rfl⟩
    rw [runOp, (side_channel_eq 0 0 0 w hu).1]
    rfl
  | handScript sendnum script =>
    exact ⟨_, (side_channel_eq 0 sendnum script w hu).2.1, ha, hu, hl, rfl⟩
  | setMaxSingleCurrent sendnum power =>
    exact ⟨_, (side_channel_eq 0 sendnum power w hu).2.2.1, ha, hu, hl, rfl⟩
  | servo sendnum =>
    exact ⟨_, (side_channel_eq CMD_MOTOR_SRV sendnum 0 w hu).2.2.2, ha, hu, hl, rfl⟩
  | prepareSwitch => exact ⟨w, rfl, ha, hu, hl, rfl⟩
  | doSwitch => exact ⟨w, rfl, ha, hu, hl, rfl⟩
  | getPeriod => exact ⟨w, rfl, ha, hu, hl, rfl⟩
  | getOverLapScale => exact ⟨w, rfl, ha, hu, hl, rfl⟩

/-- Any sequence of operations, started in an aligned state with both locks free, returns
in an aligned state with the same `number_of_angles_`. -/
theorem runOps_preserves (cv : JointStateConverter) (drive : Nat → Subsystem)
    (CMD_MOTOR_SRV : Nat) (ops : List Op) :
    ∀ w : World, Aligned w.hw → w.hw.mutex_upper_ = false → w.hw.mutex_lower_ = false →
      ∃ w1, runOps cv drive CMD_MOTOR_SRV ops w = some w1 ∧ Aligned w1.hw ∧
        w1.hw.number_of_angles_ = w.hw.number_of_angles_ := by
  induction ops with
  | nil => exact fun w ha _ _ => ⟨w, rfl, ha, rfl⟩
  | cons op ops ih =>
    intro w ha hu hl
    obtain ⟨w1, h1, ha1, hu1, hl1, hn1⟩ := runOp_preserves cv drive CMD_MOTOR_SRV op w ha hu hl
    obtain ⟨w2, h2, ha2, hn2⟩ := ih w1 ha1 hu1 hl1
    exact ⟨w2, by rw [runOps, h1, Option.some_bind, h2], ha2, hn2.trans hn1⟩

/-- C8: after `init` all per-joint sequences of the hardware state (names, limits, types,
control methods, positions, velocities, efforts, the three command vectors and the
previous references) have the same length, the number of joints; and every sequence of
bridge operations (`read`, `write`, `stopUpper`, `startUpper`, the side-channel calls,
`prepareSwitch`, `doSwitch`, the getters) run after `init` returns with all of them still
of that length. -/
theorem lengths_invariant (cv : JointStateConverter) (drive : Nat → Subsystem)
    (CMD_MOTOR_SRV : Nat) (specs : List JointSpec) (cfg : Configuration)
    (upper lower : AeroController) (ops : List Op) :
    Aligned (init specs cfg upper lower).hw ∧
      (init specs cfg upper lower).hw.number_of_angles_ = specs.length ∧
      ∃ w1, runOps cv drive CMD_MOTOR_SRV ops (init specs cfg upper lower) = some w1 ∧
        Aligned w1.hw ∧ w1.hw.number_of_angles_ = specs.length := by
  have ha : Aligned (init specs cfg upper lower).hw := by simp [Aligned, init]
  exact ⟨ha, rfl, runOps_preserves cv drive CMD_MOTOR_SRV ops _ ha rfl rfl⟩

/-! ### Enable gates per subsystem -/

/-- C6, as stated, fails: it is not the case that every subsystem has an enable flag in
the hardware state and a member that sets it; the lower subsystem has neither. -/
theorem lower_gate_absent :
    ¬ (∀ sub : Subsystem,
        (send_enable hw0 sub).isSome = true ∧ ∀ b : Bool, (gate sub b).isSome = true) := by
  intro h
  have h1 := (h Subsystem.lower).1
  simp [send_enable] at h1

/-- C6, amended: only the upper subsystem has an enable flag (`upper_send_enable_`) and a
gate (`startUpper` / `stopUpper`); the lower subsystem has no flag and no gate.  With the
upper lock free, the upper gate returns, sets the upper flag to the requested value,
leaves every other field (the lower lock included) as it was, and emits only the upper
lock and unlock events. -/
theorem upper_gate_spec (b : Bool) (w : World) (h : w.hw.mutex_upper_ = false) :
    send_enable w.hw Subsystem.upper = some w.hw.upper_send_enable_ ∧
      send_enable w.hw Subsystem.lower = none ∧
      gate Subsystem.lower b = none ∧
      ∃ op w1, gate Subsystem.upper b = some op ∧ op w = some w1 ∧
        send_enable w1.hw Subsystem.upper = some b ∧
        w1.hw = { w.hw with upper_send_enable_ := b } ∧
        w1.hw.mutex_lower_ = w.hw.mutex_lower_ ∧
        w1.trace = w.trace ++ [Event.lock_upper, Event.unlock_upper] := by
  refine ⟨rfl, rfl, rfl, ?_⟩
  cases b
  · exact ⟨stopUpper, _, rfl, (setUpper_eq w h).1, rfl, rfl, rfl, rfl⟩
  · exact ⟨startUpper, _, rfl, (setUpper_eq w h).2, rfl, rfl, rfl, rfl⟩

/-- C6 amended, at the state `w0`: the upper gate with value `false` clears the upper
flag and leaves the lower lock free. -/
theorem upper_gate_spec_witness :
    w0.hw.mutex_upper_ = false ∧
      ∃ op w1, gate Subsystem.upper false = some op ∧ op w0 = some w1 ∧
        send_enable w1.hw Subsystem.upper = some false ∧ w1.hw.mutex_lower_ = false := by
  obtain ⟨-, -, -, op, w1, h1, h2, h3, -, h5, -⟩ := upper_gate_spec false w0 rfl
  exact ⟨rfl, op, w1, h1, h2, h3, h5⟩

end aero_robot_hardware

/-! # Theorems: motion interface -/

namespace aero
namespace interface

/-- C9: for every chain selector and target pose, when the external solver reports
failure on the held kinematic state, `solveIK` returns `false` and the interface state
after the call, the kinematic state included, is the state before the call. -/
theorem solveIK_failure (ik : RobotState → ChainSelector → Pose → String → Option RobotState)
    (chain : ChainSelector) (pose : Pose) (eef_link : String) (m : AeroMoveitInterface)
    (hfail : ik m.kinematic_state chain pose eef_link = none) :
    (solveIK ik chain pose eef_link m).1 = false ∧
      (solveIK ik chain pose eef_link m).2 = m ∧
      (solveIK ik chain pose eef_link m).2.kinematic_state = m.kinematic_state := by
  simp [solveIK, hfail]

/-- C9 at the state `m0` with the solver `ik0` and a pose at `x = 2`, out of its reach. -/
theorem solveIK_failure_witness :
    solveIK ik0 (ChainSelector.group "larm") ⟨2, 0, 0, 0, 0, 0, 1⟩ "" m0 = (false, m0) := by
  have hfail : ik0 m0.kinematic_state (ChainSelector.group "larm") ⟨2, 0, 0, 0, 0, 0, 1⟩ ""
      = none := by
    simp [ik0]
  obtain ⟨h1, h2, -⟩ :=
    solveIK_failure ik0 (ChainSelector.group "larm") ⟨2, 0, 0, 0, 0, 0, 1⟩ "" m0 hfail
  exact Prod.ext h1 h2

end interface
end aero
